import Mathlib

/-!
Verification of the report-rendering core of the polymarket-dashboard
repository (`email/create_html.py`, `email/gmail_sender.py`).

The embedding is a shallow one:

* A raw cell of a pandas column is modelled by `RawVal`: a numeric value
  (or numeric string) that `pd.to_numeric(..., errors="coerce")` parses to a
  rational, a non-numeric string that coerces to NaN, or a missing entry
  (NaN/None).  `parseVal` is the coercion: NaN is modelled as `none`.
* Machine floats are modelled by exact rationals `ℚ`; none of the verified
  properties depends on float rounding.
* A pandas DataFrame of position records is modelled by a `List PositionRec`
  together with booleans recording whether the `currentValue` / `cashPnl`
  columns are present at all (column presence is frame-level in pandas and
  changes the control flow at lines 77-81 and 148-149 of create_html.py).
* `df.sort_values(by=value_col, ascending=False)` is modelled by a
  comparison sort (structurally recursive insertion sort); the claims under
  verification only use that the output is a permutation of the input that
  is sorted descending, which holds for pandas' quicksort as well.
-/

/- Batteries marks the `Rat` arithmetic operations `@[irreducible]`, which
blocks `decide`/`rfl` evaluation of concrete rational computations; restore
the default transparency for this file so that closed instances of the
theorems below can be checked by evaluation. -/
attribute [local semireducible] Rat.mul Rat.add Rat.sub Rat.inv Rat.ofScientific

/-- A raw cell of an input column, before numeric coercion. -/
inductive RawVal where
  /-- a numeric value, or a numeric string that parses to `q` -/
  | num (q : ℚ) : RawVal
  /-- a non-numeric string: `pd.to_numeric(errors="coerce")` yields NaN -/
  | bad : RawVal
  /-- a missing entry (NaN / None) -/
  | missing : RawVal
deriving DecidableEq

/-- `pd.to_numeric(x, errors="coerce")` on a single cell; NaN is `none`. -/
def parseVal : RawVal → Option ℚ
  | .num q => some q
  | .bad => none
  | .missing => none

/-- Insert `a` into `l` in front of the first element `b` with `le a b`. -/
def insertLe (le : α → α → Bool) (a : α) : List α → List α
  | [] => [a]
  | b :: l => if le a b then a :: b :: l else b :: insertLe le a l

/-- Insertion sort by the boolean comparison `le`. -/
def sortLe (le : α → α → Bool) : List α → List α
  | [] => []
  | a :: l => insertLe le a (sortLe le l)

/-- The successfully parsed values of a column, in row order
(`col.dropna()` after `pd.to_numeric`). -/
def parsedVals (xs : List RawVal) : List ℚ :=
  (xs.map parseVal).filterMap id

/-- `col.dropna().iloc[0]`: the first successfully parsed value, if any. -/
def firstParsed (xs : List RawVal) : Option ℚ :=
  (parsedVals xs).head?

/-- Python's `abs`, as a kernel-executable function on rationals
(`|q|` of Mathlib is defined through lattice instances that do not reduce;
`absQ_eq_abs` below identifies the two). -/
def absQ (q : ℚ) : ℚ := if q < 0 then -q else q

/-- The scale decision of `_to_pct01` (create_html.py lines 42-45): `true`
iff the first successfully parsed value has absolute value exceeding 1.5. -/
def pctScale (xs : List RawVal) : Bool :=
  match firstParsed xs with
  | some s => decide (1.5 < absQ s)
  | none => false

/-- `_to_pct01` (create_html.py lines 38-46) on a column that is present in
the frame: coerce every cell to numeric-or-NaN; if any value parsed and the
first parsed value has absolute value exceeding 1.5, divide the whole
column by 100 (NaN entries stay NaN); otherwise return the column as is. -/
def toPct01 (xs : List RawVal) : List (Option ℚ) :=
  let col := xs.map parseVal
  match (col.filterMap id).head? with
  | some s => if 1.5 < absQ s then col.map (Option.map (· / 100)) else col
  | none => col

/-- `Series.median()` on the rationals `l`: sort ascending, take the middle
element (odd length) or the mean of the two middle elements (even length);
`none` for an empty series (pandas returns NaN there). -/
def medianQ (l : List ℚ) : Option ℚ :=
  let s := sortLe (fun a b => decide (a ≤ b)) l
  let n := s.length
  if n = 0 then none
  else if n % 2 = 1 then some (s.getD (n / 2) 0)
  else some ((s.getD (n / 2 - 1) 0 + s.getD (n / 2) 0) / 2)

/-- The scale decision of `_to_cents` (create_html.py lines 52-53): `true`
iff the column has a parsed value and the median of the parsed values is at
most 1.5. -/
def centsScale (xs : List RawVal) : Bool :=
  match medianQ (parsedVals xs) with
  | some m => decide (m ≤ 1.5)
  | none => false

/-- `_to_cents` (create_html.py lines 48-55) on a column that is present in
the frame: coerce every cell to numeric-or-NaN; if the median of the parsed
values exists (`pd.notna(med)`) and is at most 1.5, multiply the whole
column by 100 (NaN entries stay NaN); otherwise return the column as is. -/
def toCents (xs : List RawVal) : List (Option ℚ) :=
  let col := xs.map parseVal
  match medianQ (col.filterMap id) with
  | some med => if med ≤ 1.5 then col.map (Option.map (· * 100)) else col
  | none => col

/-- The two numeric fields of a position record that the filter, the sort
and the summary bar read.  The remaining columns (title, slug, icon, sizes,
prices) do not influence the claims about filtering, sorting and summary
arithmetic and are projected away. -/
structure PositionRec where
  currentValue : RawVal
  cashPnl : RawVal
deriving DecidableEq

/-- The filter predicate of line 80 (`df[df[value_col] > 0]`): keep a record
iff its `currentValue` cell parses and the parsed value is positive
(`NaN > 0` is false in pandas, so absent and unparseable cells are dropped). -/
def survives (r : PositionRec) : Bool :=
  match parseVal r.currentValue with
  | some v => decide (0 < v)
  | none => false

/-- Line 80: drop the records that do not survive the `> 0` filter. -/
def filterRecs (recs : List PositionRec) : List PositionRec :=
  recs.filter survives

/-- The sort key of line 81: the parsed `currentValue` (every record being
sorted has a parsed positive value, so the `getD` default is never used). -/
def valKey (r : PositionRec) : ℚ :=
  (parseVal r.currentValue).getD 0

/-- Line 81 (`df.sort_values(by=value_col, ascending=False)`): sort the
surviving records by descending `currentValue`. -/
def sortRecsDesc (recs : List PositionRec) : List PositionRec :=
  sortLe (fun a b => decide (valKey b ≤ valKey a)) recs

/-- Lines 77-81 for a frame whose `currentValue` column is present:
coerce, filter out non-positive values, sort descending. -/
def processRecs (recs : List PositionRec) : List PositionRec :=
  sortRecsDesc (filterRecs recs)

/-- Lines 77-81 at frame level: when the `currentValue` column is absent
the whole block is skipped and the frame is left untouched. -/
def processFrame (hasValue : Bool) (recs : List PositionRec) : List PositionRec :=
  if hasValue then processRecs recs else recs

/-- Line 148: the `value` series of the processed frame; a NaN series of
the right length when the `currentValue` column is absent. -/
def valueSeries (hasValue : Bool) (recs : List PositionRec) : List (Option ℚ) :=
  if hasValue then (processFrame hasValue recs).map (fun r => parseVal r.currentValue)
  else (processFrame hasValue recs).map (fun _ => none)

/-- Line 149: the `cash` series of the processed frame; a NaN series when
the `cashPnl` column is absent. -/
def cashSeries (hasCash hasValue : Bool) (recs : List PositionRec) : List (Option ℚ) :=
  if hasCash then (processFrame hasValue recs).map (fun r => parseVal r.cashPnl)
  else (processFrame hasValue recs).map (fun _ => none)

/-- `Series.sum()`: NaN entries are skipped (count as 0); the sum of an
empty or all-NaN series is 0. -/
def seriesSum (l : List (Option ℚ)) : ℚ :=
  (l.map (fun o => o.getD 0)).sum

/-- Line 498 (`len(df)`): the row count shown in the stats bar. -/
def statCount (hasValue : Bool) (recs : List PositionRec) : ℕ :=
  (processFrame hasValue recs).length

/-- Line 502 (`value.sum()`): the total value shown in the stats bar. -/
def statTotalValue (hasValue : Bool) (recs : List PositionRec) : ℚ :=
  seriesSum (valueSeries hasValue recs)

/-- Line 507 (`cash.sum()`): the total P&L shown in the stats bar. -/
def statTotalPnl (hasCash hasValue : Bool) (recs : List PositionRec) : ℚ :=
  seriesSum (cashSeries hasCash hasValue recs)

/-- One entry of the serialized `<tbody>`: either the visual separator row
(`<tr class="separator-row">...`) or the `i`-th rendered data row. -/
inductive TRow where
  | sep : TRow
  | data (i : ℕ) : TRow
deriving DecidableEq

/-- The row-building loop of create_html.py lines 169-180 over `n` data
rows: for each row index `i` in order, first append the separator row when
`i > 0 and i % 5 == 0`, then append the data row itself. -/
def tableRows : ℕ → List TRow
  | 0 => []
  | n + 1 =>
      tableRows n ++ (if 0 < n ∧ n % 5 = 0 then [TRow.sep, TRow.data n] else [TRow.data n])

/-- The separator row occurs immediately before the `i`-th data row
somewhere in `l`. -/
def sepImmediatelyBefore (l : List TRow) (i : ℕ) : Prop :=
  ∃ s t, l = s ++ [TRow.sep, TRow.data i] ++ t

/-- The adjacency property that the row-building loop maintains: whenever
the separator row occurs, the entry immediately after it is the data row
of an index `j` with `j > 0`, `j % 5 = 0` and `j < n`. -/
def sepRel (n : ℕ) (a b : TRow) : Prop :=
  a = TRow.sep → ∃ j, b = TRow.data j ∧ 0 < j ∧ j % 5 = 0 ∧ j < n

/-- Group a reversed digit string into blocks of three (thousands
separators of Python's `,` format spec). -/
def commaChunks : List Char → List Char
  | a :: b :: c :: d :: rest => a :: b :: c :: ',' :: commaChunks (d :: rest)
  | l => l

/-- A natural number with thousands separators (`f"{n:,}"`). -/
def natGrouped (n : ℕ) : String :=
  ⟨(commaChunks (toString n).data.reverse).reverse⟩

/-- Two zero-padded digits (the fractional part of a `.2f` format). -/
def pad2 (n : ℕ) : String :=
  (if n < 10 then "0" else "") ++ toString n

/-- `_fmt_money` for a present value (create_html.py line 63,
`f"${float(x):,.2f}"`): dollar sign, sign of `x`, integer part with
thousands separators, two decimals.  Python rounds the binary double half
to even; the embedding rounds the exact rational (ties cannot arise for
any value discussed by the claims). -/
def fmtMoney (x : ℚ) : String :=
  let cents : ℤ := round (|x| * 100)
  "$" ++ (if x < 0 then "-" else "")
      ++ natGrouped (cents / 100).toNat ++ "." ++ pad2 (cents % 100).toNat

/-- `f"{(pct01*100):.2f}%"` for a present percentage (line 69). -/
def fmtPct (p : ℚ) : String :=
  let cents : ℤ := round (|p * 100| * 100)
  (if p < 0 then "-" else "")
      ++ toString (cents / 100).toNat ++ "." ++ pad2 (cents % 100).toNat ++ "%"

/-- The sign test of create_html.py line 70:
`(pd.notna(cash) and cash >= 0) or (pd.isna(cash) and pd.notna(pct01) and pct01 >= 0)`. -/
def pnlPos (cash pct01 : Option ℚ) : Bool :=
  match cash, pct01 with
  | some c, _ => decide (0 ≤ c)
  | none, some p => decide (0 ≤ p)
  | none, none => false

/-- The CSS class chosen on line 70: `"pos"` or `"neg"`. -/
def pnlSign (cash pct01 : Option ℚ) : String :=
  if pnlPos cash pct01 then "pos" else "neg"

/-- Lines 71-73: the space-joined inner text of the P&L span (`cash_s`
followed by the parenthesized `pct_s`, skipping empty pieces). -/
def pnlInner (cash pct01 : Option ℚ) : String :=
  let cashS := match cash with | some c => fmtMoney c | none => ""
  let pctS := match pct01 with | some p => fmtPct p | none => ""
  String.intercalate " "
    ((if cashS ≠ "" then [cashS] else []) ++ (if pctS ≠ "" then ["(" ++ pctS ++ ")"] else []))

/-- `_fmt_pnl_line` (create_html.py lines 65-74): empty when both inputs
are NaN, otherwise a `pnl`-classed span holding the formatted pieces. -/
def fmtPnlLine (cash pct01 : Option ℚ) : String :=
  if cash = none ∧ pct01 = none then ""
  else "<span class=\"pnl " ++ pnlSign cash pct01 ++ "\">" ++ pnlInner cash pct01 ++ "</span>"

/-- Line 91: `df[side_col].astype(str)` on one cell of a present `outcome`
column.  pandas renders a NaN cell as the string `"nan"`. -/
def sideDisplay : Option String → String
  | some s => s
  | none => "nan"

/-- Line 100: `side.iloc[i] if pd.notna(side.iloc[i]) and side.iloc[i] != "" else ""`.
After `astype(str)` the entry is a string and never NaN, so the `notna`
guard is always true. -/
def sideVal (outcome : Option String) : String :=
  let s := sideDisplay outcome
  if s ≠ "" then s else ""

/-- Python's `str.lower()` on the (ASCII) side values, as a structurally
recursive function (`String.toLower` of the library iterates over byte
positions and does not reduce in the kernel). -/
def strLower (s : String) : String :=
  ⟨s.data.map Char.toLower⟩

/-- Lines 110-118: the side chip markup chosen from the side value. -/
def chipHtml (s : String) : String :=
  if strLower s = "yes" then "<span class=\"chip chip-yes\">" ++ s ++ "</span>"
  else if strLower s = "no" then "<span class=\"chip chip-no\">" ++ s ++ "</span>"
  else if s ≠ "" then "<span class=\"chip\">" ++ s ++ "</span>"
  else ""

/-- The chip rendered for one record of a frame whose `outcome` column is
present (lines 91, 100, 110-118 composed). -/
def chipOfOutcome (outcome : Option String) : String :=
  chipHtml (sideVal outcome)

/-- The possible outcomes of `GmailSender._send_message` /
`GmailSender.send_email` (gmail_sender.py): the message is sent, or one of
the exception arms is taken (`socket.error`, `SMTPAuthenticationError`,
`SMTPException`, any other `Exception`). -/
inductive SendOutcome where
  | sent : SendOutcome
  | socketErr : SendOutcome
  | authErr : SendOutcome
  | smtpErr : SendOutcome
  | otherErr : SendOutcome
deriving DecidableEq

/-- `GmailSender.send_email` (gmail_sender.py lines 30-107): the whole body
is wrapped in `try/except Exception`, and `_send_message` (lines 132-185)
catches every socket/SMTP/other exception arm with `return False`; only a
completed send returns `True`.  The function is total: it reports its
outcome as a boolean and never raises. -/
def send_email (o : SendOutcome) : Bool :=
  match o with
  | .sent => true
  | _ => false

/-- The possible outcomes of constructing `GmailSender()` inside
`create_and_send_report`: `SMTPConfig.validate` succeeds, or raises a
`ValueError` naming `GMAIL_EMAIL` or `GMAIL_APP_PASSWORD` (smtp_config.py
lines 33-38), or some other `ValueError` escapes (e.g. a malformed
`SMTP_PORT` in `int(os.getenv(...))`). -/
inductive InitOutcome where
  | ok : InitOutcome
  | missingEmail : InitOutcome
  | missingPassword : InitOutcome
  | otherValueError : InitOutcome
deriving DecidableEq

/-- Externally visible I/O events of one `create_and_send_report` run. -/
inductive Event where
  | wroteReport : Event
  | attemptedSend : Event
deriving DecidableEq

/-- Python truthiness of the optional `recipient_email` argument. -/
def truthyStr : Option String → Bool
  | some s => !s.isEmpty
  | none => false

/-- `create_and_send_report` (create_html.py lines 547-617) after the data
has been fetched, as an event trace plus a result.  The HTML report is
written by `df_to_pretty_html_marketstyle` (line 580, `Path.write_text`)
before the email block runs.  When email is requested: a `ValueError` from
`GmailSender()` that names the Gmail variables is caught and the function
returns `(out, False)` (lines 608-613); any other `ValueError` is re-raised
(line 615, modelled as `Except.error`); otherwise `send_email` is called
and its boolean is returned alongside the report path (line 607).  Without
an email request the function returns `(out, None)` (line 617). -/
def create_and_send_report (sendFlag : Bool) (recipient : Option String)
    (init : InitOutcome) (o : SendOutcome) (htmlPath : String) :
    List Event × Except String (String × Option Bool) :=
  if sendFlag && truthyStr recipient then
    match init with
    | .ok => ([Event.wroteReport, Event.attemptedSend], .ok (htmlPath, some (send_email o)))
    | .missingEmail => ([Event.wroteReport], .ok (htmlPath, some false))
    | .missingPassword => ([Event.wroteReport], .ok (htmlPath, some false))
    | .otherValueError => ([Event.wroteReport], .error "ValueError")
  else ([Event.wroteReport], .ok (htmlPath, none))

/-! ## Sorting infrastructure lemmas -/

theorem insertLe_perm (le : α → α → Bool) (a : α) (l : List α) :
    (insertLe le a l).Perm (a :: l) := by
  induction l with
  | nil => simp [insertLe]
  | cons b l ih =>
    by_cases h : le a b
    · simp [insertLe, h]
    · simp only [insertLe, h, if_neg, Bool.false_eq_true, ite_false]
      exact (ih.cons b).trans (List.Perm.swap a b l)

theorem sortLe_perm (le : α → α → Bool) (l : List α) : (sortLe le l).Perm l := by
  induction l with
  | nil => simp [sortLe]
  | cons a l ih => exact (insertLe_perm le a (sortLe le l)).trans (ih.cons a)

theorem mem_sortLe (le : α → α → Bool) (l : List α) (a : α) :
    a ∈ sortLe le l ↔ a ∈ l :=
  (sortLe_perm le l).mem_iff

theorem length_sortLe (le : α → α → Bool) (l : List α) :
    (sortLe le l).length = l.length :=
  (sortLe_perm le l).length_eq

theorem pairwise_insertLe (le : α → α → Bool)
    (htot : ∀ a b, le a b = false → le b a = true)
    (htr : ∀ a b c, le a b = true → le b c = true → le a c = true)
    (a : α) (l : List α) (h : l.Pairwise (fun x y => le x y = true)) :
    (insertLe le a l).Pairwise (fun x y => le x y = true) := by
  induction l with
  | nil => simp [insertLe]
  | cons b l ih =>
    rcases List.pairwise_cons.mp h with ⟨hb, hl⟩
    by_cases hab : le a b
    · simp only [insertLe, hab, ite_true]
      refine List.pairwise_cons.mpr ⟨?_, h⟩
      intro y hy
      rcases List.mem_cons.mp hy with rfl | hy
      · exact hab
      · exact htr a b y hab (hb y hy)
    · simp only [insertLe, hab, Bool.false_eq_true, ite_false]
      refine List.pairwise_cons.mpr ⟨?_, ih hl⟩
      intro y hy
      have hy' : y ∈ a :: l := (insertLe_perm le a l).subset hy
      rcases List.mem_cons.mp hy' with rfl | hy'
      · exact htot _ _ (Bool.eq_false_iff.mpr hab)
      · exact hb y hy'

theorem pairwise_sortLe (le : α → α → Bool)
    (htot : ∀ a b, le a b = false → le b a = true)
    (htr : ∀ a b c, le a b = true → le b c = true → le a c = true)
    (l : List α) : (sortLe le l).Pairwise (fun x y => le x y = true) := by
  induction l with
  | nil => simp [sortLe]
  | cons a l ih => exact pairwise_insertLe le htot htr a (sortLe le l) ih

theorem getD_mem_of_lt (l : List α) (i : ℕ) (d : α) (h : i < l.length) :
    l.getD i d ∈ l := by
  rw [List.getD_eq_getElem?_getD, List.getElem?_eq_getElem h]
  exact List.getElem_mem h

/-! ## Median bounds -/

theorem medianQ_le_of_all_le {l : List ℚ} {m c : ℚ} (hm : medianQ l = some m)
    (hall : ∀ v ∈ l, v ≤ c) : m ≤ c := by
  unfold medianQ at hm
  set s := sortLe (fun a b => decide (a ≤ b)) l with hs
  have hmem : ∀ v ∈ s, v ≤ c := fun v hv => hall v ((mem_sortLe _ l v).mp hv)
  by_cases h0 : s.length = 0
  · simp [h0] at hm
  · by_cases hodd : s.length % 2 = 1
    · simp only [h0, if_false, hodd, if_true, Option.some.injEq] at hm
      subst hm
      exact hmem _ (getD_mem_of_lt s _ 0 (Nat.div_lt_self (Nat.pos_of_ne_zero h0) one_lt_two))
    · simp only [h0, if_false, hodd, Option.some.injEq] at hm
      subst hm
      have h2 : 2 ≤ s.length := by omega
      have ha := hmem _ (getD_mem_of_lt s (s.length / 2 - 1) 0 (by omega))
      have hb := hmem _ (getD_mem_of_lt s (s.length / 2) 0 (by omega))
      linarith

theorem lt_medianQ_of_all_lt {l : List ℚ} {m c : ℚ} (hm : medianQ l = some m)
    (hall : ∀ v ∈ l, c < v) : c < m := by
  unfold medianQ at hm
  set s := sortLe (fun a b => decide (a ≤ b)) l with hs
  have hmem : ∀ v ∈ s, c < v := fun v hv => hall v ((mem_sortLe _ l v).mp hv)
  by_cases h0 : s.length = 0
  · simp [h0] at hm
  · by_cases hodd : s.length % 2 = 1
    · simp only [h0, if_false, hodd, if_true, Option.some.injEq] at hm
      subst hm
      exact hmem _ (getD_mem_of_lt s _ 0 (Nat.div_lt_self (Nat.pos_of_ne_zero h0) one_lt_two))
    · simp only [h0, if_false, hodd, Option.some.injEq] at hm
      subst hm
      have h2 : 2 ≤ s.length := by omega
      have ha := hmem _ (getD_mem_of_lt s (s.length / 2 - 1) 0 (by omega))
      have hb := hmem _ (getD_mem_of_lt s (s.length / 2) 0 (by omega))
      linarith


theorem absQ_eq_abs (q : ℚ) : absQ q = |q| := by
  unfold absQ
  by_cases h : q < 0
  · rw [if_pos h, abs_of_neg h]
  · rw [if_neg h, abs_of_nonneg (not_lt.mp h)]

theorem medianQ_eq_none_iff (l : List ℚ) : medianQ l = none ↔ l = [] := by
  constructor
  · intro h
    by_contra hne
    unfold medianQ at h
    have h0 : (sortLe (fun a b => decide (a ≤ b)) l).length ≠ 0 := by
      rw [length_sortLe]
      exact fun hl => hne (List.length_eq_zero.mp hl)
    by_cases hodd : (sortLe (fun a b => decide (a ≤ b)) l).length % 2 = 1 <;>
      simp [h0, hodd] at h
  · intro h
    subst h
    rfl

theorem mapIf_id (b : Bool) (hb : b = false) (f : ℚ → ℚ) (y : Option (Option ℚ)) :
    y.map (Option.map (fun v => if b then f v else v)) = y := by
  subst hb
  rcases y with _ | o
  · rfl
  · rcases o with _ | v
    · rfl
    · simp

/-! ## C1: normalizePercent (`_to_pct01`) -/

/-- Claim C1: for every input column, `_to_pct01` parses each entry to a
decimal or leaves it absent (never zero, never an error); the scale
decision depends only on the first successfully parsed value — if its
absolute value exceeds 1.5 every value of the column is divided by 100,
otherwise the column is unchanged; absent entries stay absent, and the
output has one optional decimal per input row. -/
theorem c1_normalize_percent (xs : List RawVal) :
    ((toPct01 xs).length = xs.length)
    ∧ (∀ i : ℕ, (toPct01 xs)[i]? =
        ((xs.map parseVal)[i]?).map (Option.map (fun v => if pctScale xs then v / 100 else v)))
    ∧ (∀ q : ℚ, absQ q = |q|)
    ∧ (pctScale xs = true ↔ ∃ s, firstParsed xs = some s ∧ 1.5 < absQ s) := by
  have hfp : firstParsed xs = List.findSome? parseVal xs := by
    simp [firstParsed, parsedVals]
  rcases h : List.findSome? parseVal xs with _ | s
  · have hps : pctScale xs = false := by
      simp [pctScale, hfp, h]
    have ht : toPct01 xs = xs.map parseVal := by
      simp [toPct01, h]
    refine ⟨by simp [ht], ?_, absQ_eq_abs, by simp [hps, hfp, h]⟩
    intro i
    rw [ht, mapIf_id _ hps]
  · have hps : pctScale xs = decide (1.5 < absQ s) := by
      simp [pctScale, hfp, h]
    by_cases habs : (1.5 : ℚ) < absQ s
    · have hps' : pctScale xs = true := by simp [hps, habs]
      have ht : toPct01 xs = (xs.map parseVal).map (Option.map (· / 100)) := by
        simp [toPct01, h, habs]
      refine ⟨by simp [ht], ?_, absQ_eq_abs, by simp [hps', hfp, h, habs]⟩
      intro i
      rw [ht, List.getElem?_map]
      simp [hps']
    · have hps' : pctScale xs = false := by simp [hps, habs]
      have ht : toPct01 xs = xs.map parseVal := by
        simp [toPct01, h, habs]
      refine ⟨by simp [ht], ?_, absQ_eq_abs, by simp [hps', hfp, h, habs]⟩
      intro i
      rw [ht, mapIf_id _ hps']

/-- Closed witness for C1 at the spec's example column `[80, 60, 90]`: the
first parsed value 80 exceeds 1.5 in absolute value, so the whole column
is divided by 100 to `[0.8, 0.6, 0.9]`. -/
theorem c1_normalize_percent_witness :
    pctScale [RawVal.num 80, RawVal.num 60, RawVal.num 90] = true
    ∧ toPct01 [RawVal.num 80, RawVal.num 60, RawVal.num 90]
        = [some (4/5), some (3/5), some (9/10)] := by
  have h := (c1_normalize_percent [RawVal.num 80, RawVal.num 60, RawVal.num 90]).2.2.2.mpr
    ⟨80, by decide, by decide⟩
  exact ⟨h, by decide⟩

/-! ## C2: normalizeCents (`_to_cents`) -/

/-- Claim C2: for every input column, `_to_cents` parses each entry to a
decimal or leaves it absent; if the median of the successfully parsed
values is at most 1.5 the whole column is multiplied by 100, otherwise it
is left unchanged; in particular a column whose every parsed value is at
most 1.5 is scaled by 100 and a column whose every parsed value exceeds
1.5 passes through unchanged. -/
theorem c2_normalize_cents (xs : List RawVal) :
    ((toCents xs).length = xs.length)
    ∧ (∀ i : ℕ, (toCents xs)[i]? =
        ((xs.map parseVal)[i]?).map (Option.map (fun v => if centsScale xs then v * 100 else v)))
    ∧ (∀ m, medianQ (parsedVals xs) = some m →
        ((m ≤ 1.5 → toCents xs = (xs.map parseVal).map (Option.map (· * 100)))
          ∧ (1.5 < m → toCents xs = xs.map parseVal)))
    ∧ ((∀ v ∈ parsedVals xs, v ≤ 1.5) → toCents xs = (xs.map parseVal).map (Option.map (· * 100)))
    ∧ ((∀ v ∈ parsedVals xs, 1.5 < v) → toCents xs = xs.map parseVal) := by
  have hpv : parsedVals xs = List.filterMap parseVal xs := by
    simp [parsedVals]
  rcases h : medianQ (List.filterMap parseVal xs) with _ | m
  · have hcs : centsScale xs = false := by
      simp [centsScale, hpv, h]
    have ht : toCents xs = xs.map parseVal := by
      simp [toCents, h]
    have hempty : List.filterMap parseVal xs = [] := (medianQ_eq_none_iff _).mp h
    have hmapeq : (xs.map parseVal).map (Option.map (· * 100)) = xs.map parseVal := by
      have hnone : ∀ o ∈ xs.map parseVal, Option.map (· * 100) o = o := by
        intro o ho
        rcases o with _ | v
        · rfl
        · exfalso
          rcases List.mem_map.mp ho with ⟨x, hx, hpx⟩
          have : v ∈ List.filterMap parseVal xs :=
            List.mem_filterMap.mpr ⟨x, hx, hpx⟩
          rw [hempty] at this
          exact absurd this (List.not_mem_nil v)
      calc (xs.map parseVal).map (Option.map (· * 100))
          = (xs.map parseVal).map id := List.map_congr_left hnone
        _ = xs.map parseVal := List.map_id _
    refine ⟨by simp [ht], ?_, ?_, fun _ => ht.trans hmapeq.symm, fun _ => ht⟩
    · intro i
      rw [ht, mapIf_id _ hcs]
    · intro m hm
      rw [hpv, h] at hm
      exact absurd hm (by simp)
  · have hm' : medianQ (parsedVals xs) = some m := by rw [hpv]; exact h
    by_cases hle : m ≤ 1.5
    · have hcs : centsScale xs = true := by
        simp [centsScale, hpv, h, hle]
      have ht : toCents xs = (xs.map parseVal).map (Option.map (· * 100)) := by
        simp [toCents, h, hle]
      refine ⟨by simp [ht], ?_, ?_, fun _ => ht, ?_⟩
      · intro i
        rw [ht, List.getElem?_map]
        simp [hcs]
      · intro m' hmm
        rw [hm'] at hmm
        rcases Option.some.injEq .. ▸ hmm with rfl
        exact ⟨fun _ => ht, fun hgt => absurd hle (not_le.mpr hgt)⟩
      · intro hall
        exact absurd hle (not_le.mpr (lt_medianQ_of_all_lt hm' hall))
    · have hcs : centsScale xs = false := by
        simp [centsScale, hpv, h, hle]
      have ht : toCents xs = xs.map parseVal := by
        simp [toCents, h, hle]
      refine ⟨by simp [ht], ?_, ?_, ?_, fun _ => ht⟩
      · intro i
        rw [ht, mapIf_id _ hcs]
      · intro m' hmm
        rw [hm'] at hmm
        rcases Option.some.injEq .. ▸ hmm with rfl
        exact ⟨fun hle' => absurd hle' hle, fun _ => ht⟩
      · intro hall
        exact absurd (medianQ_le_of_all_le hm' hall) hle

/-- Closed witness for C2 at the spec's example column `[0.63, 0.80, 0.45]`:
every value is at most 1.5, so the whole column is multiplied by 100 to
`[63, 80, 45]`. -/
theorem c2_normalize_cents_witness :
    toCents [RawVal.num 0.63, RawVal.num 0.8, RawVal.num 0.45]
      = [some 63, some 80, some 45] := by
  have h := (c2_normalize_cents [RawVal.num 0.63, RawVal.num 0.8, RawVal.num 0.45]).2.2.2.1
    (by decide)
  rw [h]
  decide

/-! ## C3, C4: filtering and sorting of the report rows -/

theorem survives_iff (r : PositionRec) :
    survives r = true ↔ ∃ v, parseVal r.currentValue = some v ∧ 0 < v := by
  unfold survives
  rcases hp : parseVal r.currentValue with _ | v <;> simp [hp]

/-- Claim C3: a record whose `currentValue` is absent, non-positive or
unparseable is excluded from the output rows, and a record with a positive
parseable `currentValue` is kept (membership in the rendered row list is
exactly membership in the input plus a positive parsed `currentValue`). -/
theorem c3_filtering (recs : List PositionRec) (r : PositionRec) :
    r ∈ processRecs recs ↔ (r ∈ recs ∧ ∃ v, parseVal r.currentValue = some v ∧ 0 < v) := by
  rw [processRecs, sortRecsDesc]
  rw [(sortLe_perm _ (filterRecs recs)).mem_iff]
  rw [filterRecs, List.mem_filter]
  rw [survives_iff]

/-- Closed witness for C3: with records whose `currentValue` cells are
`0`, `150.25`, absent and unparseable, exactly the `150.25` record is kept. -/
theorem c3_filtering_witness :
    ({ currentValue := RawVal.num 150.25, cashPnl := RawVal.missing } : PositionRec)
      ∈ processRecs
        [{ currentValue := RawVal.num 0, cashPnl := RawVal.missing },
         { currentValue := RawVal.num 150.25, cashPnl := RawVal.missing },
         { currentValue := RawVal.missing, cashPnl := RawVal.missing },
         { currentValue := RawVal.bad, cashPnl := RawVal.missing }]
    ∧ ({ currentValue := RawVal.num 0, cashPnl := RawVal.missing } : PositionRec)
      ∉ processRecs
        [{ currentValue := RawVal.num 0, cashPnl := RawVal.missing },
         { currentValue := RawVal.num 150.25, cashPnl := RawVal.missing },
         { currentValue := RawVal.missing, cashPnl := RawVal.missing },
         { currentValue := RawVal.bad, cashPnl := RawVal.missing }] := by
  constructor
  · exact (c3_filtering _ _).mpr ⟨by decide, 150.25, rfl, by decide⟩
  · decide

/-- Claim C4: the surviving records appear in the output in descending
order of `currentValue` (the rendered list is a permutation of the
surviving records that is pairwise descending on the parsed value). -/
theorem c4_sorting (recs : List PositionRec) :
    (processRecs recs).Pairwise (fun a b => valKey b ≤ valKey a)
    ∧ (processRecs recs).Perm (filterRecs recs) := by
  constructor
  · have htot : ∀ a b : PositionRec, decide (valKey b ≤ valKey a) = false →
        decide (valKey a ≤ valKey b) = true := by
      intro a b h
      simp only [decide_eq_false_iff_not, not_le] at h
      simpa using le_of_lt h
    have htr : ∀ a b c : PositionRec, decide (valKey b ≤ valKey a) = true →
        decide (valKey c ≤ valKey b) = true → decide (valKey c ≤ valKey a) = true := by
      intro a b c h1 h2
      simp only [decide_eq_true_eq] at h1 h2 ⊢
      exact le_trans h2 h1
    have hp := pairwise_sortLe (fun a b : PositionRec => decide (valKey b ≤ valKey a))
      htot htr (filterRecs recs)
    exact hp.imp (fun h => of_decide_eq_true h)
  · exact sortLe_perm _ _

/-- Closed witness for C4 at the spec's example: values `[10, 500, 1]`
come out in the order `[500, 10, 1]`, pairwise descending. -/
theorem c4_sorting_witness :
    processRecs
        [{ currentValue := RawVal.num 10, cashPnl := RawVal.missing },
         { currentValue := RawVal.num 500, cashPnl := RawVal.missing },
         { currentValue := RawVal.num 1, cashPnl := RawVal.missing }]
      = [{ currentValue := RawVal.num 500, cashPnl := RawVal.missing },
         { currentValue := RawVal.num 10, cashPnl := RawVal.missing },
         { currentValue := RawVal.num 1, cashPnl := RawVal.missing }]
    ∧ (processRecs
        [{ currentValue := RawVal.num 10, cashPnl := RawVal.missing },
         { currentValue := RawVal.num 500, cashPnl := RawVal.missing },
         { currentValue := RawVal.num 1, cashPnl := RawVal.missing }]).Pairwise
        (fun a b => valKey b ≤ valKey a) :=
  ⟨by decide, (c4_sorting _).1⟩

/-! ## C6: summary arithmetic -/

theorem processFrame_true_perm (recs : List PositionRec) :
    (processFrame true recs).Perm (filterRecs recs) := by
  simpa [processFrame, processRecs, sortRecsDesc] using
    sortLe_perm (fun a b : PositionRec => decide (valKey b ≤ valKey a)) (filterRecs recs)

/-- Claim C6: the summary is row count = surviving record count, total
value = sum of `currentValue` over the surviving records, total P&L = sum
of `cashPnl` over the surviving records with absent values counted as 0;
and an input that is empty after filtering yields `0 / 0 / 0` with an
empty row section rather than an error. -/
theorem c6_summary (recs : List PositionRec) (hasCash : Bool) :
    statCount true recs = (filterRecs recs).length
    ∧ statTotalValue true recs
        = ((filterRecs recs).map (fun r => (parseVal r.currentValue).getD 0)).sum
    ∧ statTotalPnl hasCash true recs
        = ((filterRecs recs).map
            (fun r => if hasCash then (parseVal r.cashPnl).getD 0 else 0)).sum
    ∧ (filterRecs recs = [] →
        statCount true recs = 0 ∧ statTotalValue true recs = 0
        ∧ statTotalPnl hasCash true recs = 0 ∧ processFrame true recs = []) := by
  have hperm := processFrame_true_perm recs
  have hc : statCount true recs = (filterRecs recs).length := by
    rw [statCount]
    exact hperm.length_eq
  have hv : statTotalValue true recs
      = ((filterRecs recs).map (fun r => (parseVal r.currentValue).getD 0)).sum := by
    have h1 : statTotalValue true recs
        = ((processFrame true recs).map (fun r => (parseVal r.currentValue).getD 0)).sum := by
      simp [statTotalValue, valueSeries, seriesSum, List.map_map, Function.comp_def]
    rw [h1]
    exact (hperm.map (fun r => (parseVal r.currentValue).getD 0)).sum_eq
  have hp : statTotalPnl hasCash true recs
      = ((filterRecs recs).map
          (fun r => if hasCash then (parseVal r.cashPnl).getD 0 else 0)).sum := by
    have h1 : statTotalPnl hasCash true recs
        = ((processFrame true recs).map
            (fun r => if hasCash then (parseVal r.cashPnl).getD 0 else 0)).sum := by
      cases hasCash <;>
        simp [statTotalPnl, cashSeries, seriesSum, List.map_map, Function.comp_def]
    rw [h1]
    exact (hperm.map _).sum_eq
  refine ⟨hc, hv, hp, ?_⟩
  intro hemp
  have hframe : processFrame true recs = [] := by
    rw [← List.length_eq_zero, hperm.length_eq, hemp]
    rfl
  exact ⟨by rw [hc, hemp]; rfl, by rw [hv, hemp]; rfl, by rw [hp, hemp]; rfl, hframe⟩

/-- Closed witness for C6 at the spec's example: `currentValue = [100, 250]`
and `cashPnl = [10, -5]` yield count 2, total value 350 and total P&L 5;
and the empty record set yields 0 / 0 / 0 with an empty row section. -/
theorem c6_summary_witness :
    statCount true
        [{ currentValue := RawVal.num 100, cashPnl := RawVal.num 10 },
         { currentValue := RawVal.num 250, cashPnl := RawVal.num (-5) }] = 2
    ∧ statTotalValue true
        [{ currentValue := RawVal.num 100, cashPnl := RawVal.num 10 },
         { currentValue := RawVal.num 250, cashPnl := RawVal.num (-5) }] = 350
    ∧ statTotalPnl true true
        [{ currentValue := RawVal.num 100, cashPnl := RawVal.num 10 },
         { currentValue := RawVal.num 250, cashPnl := RawVal.num (-5) }] = 5
    ∧ (statCount true ([] : List PositionRec) = 0 ∧ statTotalValue true [] = 0
        ∧ statTotalPnl true true [] = 0 ∧ processFrame true [] = []) := by
  refine ⟨?_, ?_, ?_, (c6_summary [] true).2.2.2 (by decide)⟩
  · rw [(c6_summary _ true).1]
    decide
  · rw [(c6_summary _ true).2.1]
    decide
  · rw [(c6_summary _ true).2.2.1]
    decide

/-! ## C10: behaviour when the `currentValue` column is absent -/

/-- Counterexample to claim C10 as stated: with no `currentValue` column
but a `cashPnl` column holding the single value 10, the summary's total
P&L is 10, not 0 (line 149 of create_html.py reads the `cashPnl` column
independently of the `currentValue` column). -/
theorem c10_no_value_column_counterexample :
    statTotalPnl true false
        [{ currentValue := RawVal.missing, cashPnl := RawVal.num 10 }] = 10
    ∧ statTotalPnl true false
        [{ currentValue := RawVal.missing, cashPnl := RawVal.num 10 }] ≠ 0 := by
  constructor <;> decide

/-- Claim C10 as amended: when the input record set has no `currentValue`
column, no record is filtered out and no sorting is performed — every
record appears in the output rows in its original order — and the
summary's total value evaluates to 0, while the total P&L evaluates to the
sum of the parsed `cashPnl` values over all records (which is 0 when the
`cashPnl` column is absent, but not in general). -/
theorem c10_no_value_column (recs : List PositionRec) (hasCash : Bool) :
    processFrame false recs = recs
    ∧ statTotalValue false recs = 0
    ∧ statTotalPnl hasCash false recs
        = (recs.map (fun r => if hasCash then (parseVal r.cashPnl).getD 0 else 0)).sum := by
  refine ⟨rfl, ?_, ?_⟩
  · simp [statTotalValue, valueSeries, seriesSum, processFrame, List.map_map, Function.comp_def]
  · cases hasCash <;>
      simp [statTotalPnl, cashSeries, seriesSum, processFrame, List.map_map, Function.comp_def]

/-- Closed witness for the amended C10: one record with an absent
`currentValue` column and `cashPnl = 10` is passed through unfiltered and
unsorted, total value is 0 and total P&L sums the `cashPnl` column. -/
theorem c10_no_value_column_witness :
    processFrame false [{ currentValue := RawVal.missing, cashPnl := RawVal.num 10 }]
      = [{ currentValue := RawVal.missing, cashPnl := RawVal.num 10 }]
    ∧ statTotalValue false [{ currentValue := RawVal.missing, cashPnl := RawVal.num 10 }] = 0 :=
  ⟨(c10_no_value_column [{ currentValue := RawVal.missing, cashPnl := RawVal.num 10 }] true).1,
   (c10_no_value_column [{ currentValue := RawVal.missing, cashPnl := RawVal.num 10 }] true).2.1⟩

/-! ## C7: formatPnlLine (`_fmt_pnl_line`) -/

theorem span_ne_empty (s t : String) :
    "<span class=\"pnl " ++ s ++ "\">" ++ t ++ "</span>" ≠ "" := by
  intro h
  have h2 := congrArg String.length h
  simp only [String.length_append] at h2
  have ha : ("<span class=\"pnl " : String).length = 17 := rfl
  have hb : ("\">" : String).length = 2 := rfl
  have hc : ("</span>" : String).length = 7 := rfl
  have hd : ("" : String).length = 0 := rfl
  rw [ha, hb, hc, hd] at h2
  omega

/-- Claim C7: `_fmt_pnl_line` returns the empty string exactly when both
inputs are absent; otherwise it emits a span whose sign class is `"pos"`
exactly when `cash` is present and non-negative, or `cash` is absent and
`pct01` is present and non-negative, and `"neg"` in every other case. -/
theorem c7_pnl_line (cash pct01 : Option ℚ) :
    (fmtPnlLine cash pct01 = "" ↔ cash = none ∧ pct01 = none)
    ∧ (pnlSign cash pct01 = "pos" ↔
        ((∃ c, cash = some c ∧ 0 ≤ c) ∨ (cash = none ∧ ∃ p, pct01 = some p ∧ 0 ≤ p)))
    ∧ (pnlSign cash pct01 = "neg" ↔
        ¬((∃ c, cash = some c ∧ 0 ≤ c) ∨ (cash = none ∧ ∃ p, pct01 = some p ∧ 0 ≤ p)))
    ∧ (¬(cash = none ∧ pct01 = none) →
        fmtPnlLine cash pct01
          = "<span class=\"pnl " ++ pnlSign cash pct01 ++ "\">" ++ pnlInner cash pct01 ++ "</span>") := by
  have hpos : pnlPos cash pct01 = true ↔
      ((∃ c, cash = some c ∧ 0 ≤ c) ∨ (cash = none ∧ ∃ p, pct01 = some p ∧ 0 ≤ p)) := by
    rcases cash with _ | c
    · rcases pct01 with _ | p
      · simp [pnlPos]
      · simp [pnlPos]
    · simp [pnlPos]
  refine ⟨?_, ?_, ?_, ?_⟩
  · by_cases h : cash = none ∧ pct01 = none
    · simp [fmtPnlLine, h]
    · simp only [fmtPnlLine, if_neg h]
      exact iff_of_false (span_ne_empty _ _) h
  · rw [← hpos]
    unfold pnlSign
    by_cases hp : pnlPos cash pct01 <;> simp [hp]
  · rw [← hpos]
    unfold pnlSign
    by_cases hp : pnlPos cash pct01 <;> simp [hp]
  · intro h
    simp only [fmtPnlLine, if_neg h]

/-- Closed witness for C7: with `cash = -10` and `pct01 = 5` the line is
non-empty and its sign class is `"neg"` (a present negative cash wins over
a positive percentage); with both inputs absent the line is empty. -/
theorem c7_pnl_line_witness :
    fmtPnlLine (some (-10)) (some 5) ≠ ""
    ∧ pnlSign (some (-10)) (some 5) = "neg"
    ∧ fmtPnlLine none none = "" := by
  refine ⟨?_, ?_, (c7_pnl_line none none).1.mpr ⟨rfl, rfl⟩⟩
  · intro h
    have h2 := (c7_pnl_line (some (-10)) (some 5)).1.mp h
    exact absurd h2.1 (by simp)
  · refine (c7_pnl_line (some (-10)) (some 5)).2.2.1.mpr ?_
    rintro (⟨c, hc, h0⟩ | ⟨hn, -⟩)
    · rw [Option.some.injEq] at hc
      subst hc
      exact absurd h0 (by decide)
    · exact Option.noConfusion hn

/-! ## C8: side chip projection -/

/-- Claim C8 against the code: the "yes"/"no"/other cases behave as
claimed (case-insensitively green, red, neutral, and an empty side value
yields no chip), but a record whose `outcome` cell is absent does NOT
yield "no chip": `astype(str)` at line 91 renders NaN as the string
`"nan"`, the `pd.notna` guard at line 100 is therefore always true, and
the absent outcome falls into the neutral-chip branch with the literal
text `nan`. -/
theorem c8_side_chip_eval :
    chipOfOutcome (some "Yes") = "<span class=\"chip chip-yes\">Yes</span>"
    ∧ chipOfOutcome (some "NO") = "<span class=\"chip chip-no\">NO</span>"
    ∧ chipOfOutcome (some "Up") = "<span class=\"chip\">Up</span>"
    ∧ chipOfOutcome (some "") = ""
    ∧ chipOfOutcome none = "<span class=\"chip\">nan</span>"
    ∧ chipOfOutcome none ≠ "" := by
  refine ⟨by decide, by decide, by decide, by decide, by decide, by decide⟩

/-! ## C9: delivery failure is non-fatal and report-preserving -/

/-- Claim C9: `send_email` reports its outcome as a boolean — `True`
exactly on a completed send, `False` on every error arm instead of
raising — and `create_and_send_report` writes the HTML report before any
delivery attempt and still returns the report path when delivery fails
(both when the send itself fails and when the Gmail credentials are
missing), so a delivery failure never discards the already-rendered
report. -/
theorem c9_delivery (sendFlag : Bool) (recipient : Option String)
    (init : InitOutcome) (o : SendOutcome) (htmlPath : String) :
    (send_email o = true ↔ o = SendOutcome.sent)
    ∧ (∀ e : SendOutcome, e ≠ SendOutcome.sent → send_email e = false)
    ∧ ((create_and_send_report sendFlag recipient init o htmlPath).1.head?
        = some Event.wroteReport)
    ∧ ((create_and_send_report sendFlag recipient init o htmlPath).1 = [Event.wroteReport]
        ∨ (create_and_send_report sendFlag recipient init o htmlPath).1
          = [Event.wroteReport, Event.attemptedSend])
    ∧ (∀ r, (create_and_send_report sendFlag recipient init o htmlPath).2 = Except.ok r →
        r.1 = htmlPath)
    ∧ ((sendFlag && truthyStr recipient) = true → o ≠ SendOutcome.sent →
        init = InitOutcome.ok →
        (create_and_send_report sendFlag recipient init o htmlPath).2
          = Except.ok (htmlPath, some false))
    ∧ ((sendFlag && truthyStr recipient) = true →
        (init = InitOutcome.missingEmail ∨ init = InitOutcome.missingPassword) →
        (create_and_send_report sendFlag recipient init o htmlPath).2
          = Except.ok (htmlPath, some false)) := by
  have hA : send_email o = true ↔ o = SendOutcome.sent := by
    cases o <;> simp [send_email]
  have hB : ∀ e : SendOutcome, e ≠ SendOutcome.sent → send_email e = false := by
    intro e he
    cases e
    · exact absurd rfl he
    all_goals rfl
  refine ⟨hA, hB, ?_, ?_, ?_, ?_, ?_⟩ <;>
    by_cases hc : (sendFlag && truthyStr recipient) = true <;> cases init <;> cases o <;>
      simp [create_and_send_report, send_email, hc]

/-- Closed witness for C9: email requested, configuration valid, network
send fails — the send is reported as `False`, the report was written
before the send attempt, and the report path is still returned. -/
theorem c9_delivery_witness :
    send_email SendOutcome.socketErr = false
    ∧ (create_and_send_report true (some "user@example.com") InitOutcome.ok
        SendOutcome.socketErr "polymarket_positions.html").2
        = Except.ok ("polymarket_positions.html", some false)
    ∧ (create_and_send_report true (some "user@example.com") InitOutcome.ok
        SendOutcome.socketErr "polymarket_positions.html").1
        = [Event.wroteReport, Event.attemptedSend] := by
  refine ⟨?_, ?_, by decide⟩
  · exact (c9_delivery true (some "user@example.com") InitOutcome.ok
      SendOutcome.socketErr "polymarket_positions.html").2.1 SendOutcome.socketErr (by decide)
  · exact (c9_delivery true (some "user@example.com") InitOutcome.ok
      SendOutcome.socketErr "polymarket_positions.html").2.2.2.2.2.1 (by decide) (by decide) rfl

/-! ## C5: separator placement -/

theorem tableRows_succ (n : ℕ) :
    tableRows (n + 1)
      = tableRows n ++ (if 0 < n ∧ n % 5 = 0 then [TRow.sep, TRow.data n] else [TRow.data n]) :=
  rfl

theorem tableRows_getLast (n : ℕ) :
    (tableRows (n + 1)).getLast? = some (TRow.data n) := by
  rw [tableRows_succ]
  by_cases h : 0 < n ∧ n % 5 = 0
  · rw [if_pos h,
      show tableRows n ++ [TRow.sep, TRow.data n]
        = (tableRows n ++ [TRow.sep]) ++ [TRow.data n] by simp]
    exact List.getLast?_concat _
  · rw [if_neg h]
    exact List.getLast?_concat _

theorem tableRows_head (n : ℕ) :
    (tableRows (n + 1)).head? = some (TRow.data 0) := by
  induction n with
  | zero => rfl
  | succ m ih =>
      rw [tableRows_succ]
      rcases hl : tableRows (m + 1) with _ | ⟨x, xs⟩
      · rw [hl] at ih
        simp at ih
      · rw [hl] at ih
        simp only [List.head?_cons, Option.some.injEq] at ih
        simp [ih]

theorem tableRows_chain (n : ℕ) : List.Chain' (sepRel n) (tableRows n) := by
  induction n with
  | zero => exact List.chain'_nil
  | succ m ih =>
      rw [tableRows_succ]
      apply List.chain'_append.mpr
      refine ⟨ih.imp ?_, ?_, ?_⟩
      · intro a b hab ha
        rcases hab ha with ⟨j, hj, h1, h2, h3⟩
        exact ⟨j, hj, h1, h2, Nat.lt_succ_of_lt h3⟩
      · by_cases h : 0 < m ∧ m % 5 = 0
        · rw [if_pos h]
          refine List.chain'_cons.mpr ⟨?_, List.chain'_singleton _⟩
          intro _
          exact ⟨m, rfl, h.1, h.2, Nat.lt_succ_self m⟩
        · rw [if_neg h]
          exact List.chain'_singleton _
      · intro x hx y hy
        rcases m with _ | k
        · simp [tableRows] at hx
        · rw [tableRows_getLast k] at hx
          simp only [Option.mem_def, Option.some.injEq] at hx
          subst hx
          intro hxsep
          exact TRow.noConfusion hxsep

theorem sepBefore_of_qualifies {i : ℕ} (h1 : 0 < i) (h2 : i % 5 = 0) :
    ∀ n, i < n → sepImmediatelyBefore (tableRows n) i := by
  intro n
  induction n with
  | zero => omega
  | succ m ih =>
      intro h3
      rcases Nat.lt_succ_iff_lt_or_eq.mp h3 with hlt | heq
      · rcases ih hlt with ⟨s, t, hst⟩
        refine ⟨s, t ++ (if 0 < m ∧ m % 5 = 0 then [TRow.sep, TRow.data m] else [TRow.data m]), ?_⟩
        rw [tableRows_succ, hst]
        simp
      · subst heq
        refine ⟨tableRows i, [], ?_⟩
        rw [tableRows_succ, if_pos ⟨h1, h2⟩]
        simp

/-- Claim C5: in the serialized table over `n` data rows the separator row
occurs immediately before the `i`-th data row exactly when `i` is a
positive multiple of 5 below `n` (so never before row 0), the table never
begins or ends with a separator, and every occurrence of the separator is
immediately followed by such a qualifying data row — so the separators
appear at positions 5, 10, 15, … and nowhere else. -/
theorem c5_separator_placement (n : ℕ) :
    (∀ i, sepImmediatelyBefore (tableRows n) i ↔ (0 < i ∧ i % 5 = 0 ∧ i < n))
    ∧ (tableRows n).head? ≠ some TRow.sep
    ∧ (tableRows n).getLast? ≠ some TRow.sep
    ∧ List.Chain' (sepRel n) (tableRows n) := by
  refine ⟨?_, ?_, ?_, tableRows_chain n⟩
  · intro i
    constructor
    · rintro ⟨s, t, hst⟩
      have hchain := tableRows_chain n
      rw [hst, show s ++ [TRow.sep, TRow.data i] ++ t
          = s ++ ([TRow.sep, TRow.data i] ++ t) by simp] at hchain
      have h2 := (List.chain'_append.mp hchain).2.1
      have h3 := (List.chain'_cons.mp h2).1 rfl
      rcases h3 with ⟨j, hj, h5, h6, h7⟩
      injection hj with hij
      subst hij
      exact ⟨h5, h6, h7⟩
    · rintro ⟨h1, h2, h3⟩
      exact sepBefore_of_qualifies h1 h2 n h3
  · cases n with
    | zero => simp [tableRows]
    | succ m =>
        rw [tableRows_head m]
        simp
  · cases n with
    | zero => simp [tableRows]
    | succ m =>
        rw [tableRows_getLast m]
        simp

/-- Closed witness for C5 at the spec's example of 12 surviving rows: the
separator sits immediately before rows 5 and 10 and, e.g., not before
rows 0 or 3. -/
theorem c5_separator_placement_witness :
    sepImmediatelyBefore (tableRows 12) 5
    ∧ sepImmediatelyBefore (tableRows 12) 10
    ∧ ¬sepImmediatelyBefore (tableRows 12) 3
    ∧ ¬sepImmediatelyBefore (tableRows 12) 0 :=
  ⟨((c5_separator_placement 12).1 5).mpr (by omega),
   ((c5_separator_placement 12).1 10).mpr (by omega),
   fun h => by have h2 := ((c5_separator_placement 12).1 3).mp h; omega,
   fun h => by have h2 := ((c5_separator_placement 12).1 0).mp h; omega⟩
